import Mathlib

/-!
Shallow embedding of the lore storage layer (src/storage.rs, src/models.rs,
src/commands/search.rs).

Rust strings are modelled as lists of characters; where Rust indexes a string
by UTF-8 byte offsets the model computes byte offsets from Char.utf8Size and a
byte-indexed slice returns none exactly when the Rust slice would panic on a
non-boundary index.  Timestamps (chrono DateTime<Utc>, serialized as RFC3339
and compared by instant) are modelled as naturals with the same total order.
The filesystem under the store root is modelled as explicit state: an
association list of record files, the optional index file and the optional
config blob.  JSON texts are modelled at the level of the serde_json value
tree; serialization follows the serde attributes on the Rust structs
(skip_serializing_if on options and empty vectors, default on vectors).
-/

/-- A Rust string, as its list of characters. -/
abbrev RStr := List Char

/-- normalize_path from src/storage.rs: trim_start_matches removes the leading
pattern "./" repeatedly, then every backslash is replaced by a slash. -/
def stripDotSlash : RStr → RStr
  | [] => []
  | [c] => [c]
  | a :: b :: rest => if a = '.' ∧ b = '/' then stripDotSlash rest else a :: b :: rest

/-- The character substitution of String.replace in normalize_path. -/
def slashify (c : Char) : Char := if c = '\\' then '/' else c

/-- normalize_path from src/storage.rs line 269. -/
def normalize_path (path : RStr) : RStr := (stripDotSlash path).map slashify

/-- The path normalizer as the specification words it for claim C8: strip a
single leading "./" segment if present, then rewrite backslashes. -/
def spec_normalize_once (path : RStr) : RStr :=
  match path with
  | '.' :: '/' :: rest => rest.map slashify
  | p => p.map slashify

/-- serde_json value tree. -/
inductive Json where
  | null
  | bool (b : Bool)
  | num (n : Nat)
  | str (s : RStr)
  | arr (xs : List Json)
  | obj (fields : List (RStr × Json))

/-- RejectedAlternative from src/models.rs: a name and an optional reason,
the reason omitted from the serialized form when absent. -/
structure RejectedAlternative where
  name : RStr
  reason : Option RStr
deriving DecidableEq

/-- ThoughtObject from src/models.rs.  line_range and commit_hash are omitted
from JSON when none; rejected_alternatives and tags are omitted when empty and
default to empty on deserialization. -/
structure ThoughtObject where
  id : RStr
  target_file : RStr
  line_range : Option (Nat × Nat)
  file_hash : RStr
  commit_hash : Option RStr
  agent_id : RStr
  timestamp : Nat
  intent : RStr
  reasoning_trace : RStr
  rejected_alternatives : List RejectedAlternative
  tags : List RStr
deriving DecidableEq

/-- A serde field that is skipped when the optional value is absent. -/
def optJField (k : RStr) : Option Json → List (RStr × Json)
  | none => []
  | some j => [(k, j)]

/-- Serialization of a RejectedAlternative, following the serde attributes. -/
def RejectedAlternative.toJson (a : RejectedAlternative) : Json :=
  Json.obj ([("name".toList, Json.str a.name)]
    ++ optJField "reason".toList (a.reason.map Json.str))

/-- Serialization of a ThoughtObject, following the serde attributes and the
field order of the Rust struct. -/
def ThoughtObject.toJson (e : ThoughtObject) : Json :=
  Json.obj (
    [("id".toList, Json.str e.id),
     ("target_file".toList, Json.str e.target_file)]
    ++ optJField "line_range".toList
        (e.line_range.map (fun p => Json.arr [Json.num p.1, Json.num p.2]))
    ++ [("file_hash".toList, Json.str e.file_hash)]
    ++ optJField "commit_hash".toList (e.commit_hash.map Json.str)
    ++ [("agent_id".toList, Json.str e.agent_id),
        ("timestamp".toList, Json.num e.timestamp),
        ("intent".toList, Json.str e.intent),
        ("reasoning_trace".toList, Json.str e.reasoning_trace)]
    ++ (match e.rejected_alternatives with
        | [] => []
        | l => [("rejected_alternatives".toList,
                 Json.arr (l.map RejectedAlternative.toJson))])
    ++ (match e.tags with
        | [] => []
        | l => [("tags".toList, Json.arr (l.map Json.str))]))

/-- Lookup of a field of a JSON object by name. -/
def jLookup (fields : List (RStr × Json)) (k : RStr) : Option Json :=
  match fields with
  | [] => none
  | (k', v) :: rest => if k' = k then some v else jLookup rest k

/-- Deserialization of a required string field. -/
def getStr (fields : List (RStr × Json)) (k : RStr) : Option RStr :=
  match jLookup fields k with
  | some (Json.str s) => some s
  | _ => none

/-- Deserialization of a required numeric field. -/
def getNat (fields : List (RStr × Json)) (k : RStr) : Option Nat :=
  match jLookup fields k with
  | some (Json.num n) => some n
  | _ => none

/-- Deserialization of an optional string field: absent or null means none. -/
def getOptStr (fields : List (RStr × Json)) (k : RStr) : Option (Option RStr) :=
  match jLookup fields k with
  | none => some none
  | some Json.null => some none
  | some (Json.str s) => some (some s)
  | some _ => none

/-- Deserialization of the optional line_range pair: a two-element numeric
array, absent or null meaning none. -/
def getOptPair (fields : List (RStr × Json)) (k : RStr) :
    Option (Option (Nat × Nat)) :=
  match jLookup fields k with
  | none => some none
  | some Json.null => some none
  | some (Json.arr [Json.num a, Json.num b]) => some (some (a, b))
  | some _ => none

/-- Sequential traversal of a list under Option, as serde deserializes the
elements of a JSON sequence one by one. -/
def optionMapList (f : α → Option β) : List α → Option (List β)
  | [] => some []
  | a :: rest =>
    match f a, optionMapList f rest with
    | some b, some bs => some (b :: bs)
    | _, _ => none

/-- Deserialization of a RejectedAlternative. -/
def RejectedAlternative.fromJson : Json → Option RejectedAlternative
  | Json.obj fields =>
    match getStr fields "name".toList, getOptStr fields "reason".toList with
    | some n, some r => some ⟨n, r⟩
    | _, _ => none
  | _ => none

/-- Deserialization of the rejected_alternatives field, defaulting to empty
when absent. -/
def getAlts (fields : List (RStr × Json)) (k : RStr) :
    Option (List RejectedAlternative) :=
  match jLookup fields k with
  | none => some []
  | some (Json.arr xs) => optionMapList RejectedAlternative.fromJson xs
  | some _ => none

/-- Deserialization of the tags field, defaulting to empty when absent. -/
def getTags (fields : List (RStr × Json)) (k : RStr) : Option (List RStr) :=
  match jLookup fields k with
  | none => some []
  | some (Json.arr xs) =>
    optionMapList (fun j => match j with | Json.str s => some s | _ => none) xs
  | some _ => none

/-- Deserialization of a ThoughtObject from a JSON value. -/
def ThoughtObject.fromJson : Json → Option ThoughtObject
  | Json.obj fields =>
    match getStr fields "id".toList, getStr fields "target_file".toList,
          getOptPair fields "line_range".toList,
          getStr fields "file_hash".toList,
          getOptStr fields "commit_hash".toList,
          getStr fields "agent_id".toList, getNat fields "timestamp".toList,
          getStr fields "intent".toList,
          getStr fields "reasoning_trace".toList,
          getAlts fields "rejected_alternatives".toList,
          getTags fields "tags".toList with
    | some i, some tf, some lr, some fh, some ch, some ag, some ts, some it,
      some rt, some ra, some tg =>
      some ⟨i, tf, lr, fh, ch, ag, ts, it, rt, ra, tg⟩
    | _, _, _, _, _, _, _, _, _, _, _ => none
  | _ => none

/-- The storage error taxonomy of src/storage.rs (StorageError). -/
inductive StorageError where
  | notInit
  | alreadyInit
  | ioErr
  | jsonErr
  | fileNotFound (id : RStr)
deriving DecidableEq

/-- LoreIndex from src/models.rs: the map from file path to record ids plus
the running total, the map modelled as an association list with distinct keys
(the HashMap read off in a fixed order). -/
structure LoreIndex where
  files : List (RStr × List RStr)
  entry_count : Nat

/-- LoreIndex::new. -/
def LoreIndex.new : LoreIndex := ⟨[], 0⟩

/-- HashMap entry(file).or_default().push(id): append the id to the list at
the key, creating the key when absent. -/
def pushAssoc (m : List (RStr × List RStr)) (k : RStr) (v : RStr) :
    List (RStr × List RStr) :=
  match m with
  | [] => [(k, [v])]
  | (k', vs) :: rest =>
    if k' = k then (k', vs ++ [v]) :: rest else (k', vs) :: pushAssoc rest k v

/-- LoreIndex::add_entry from src/models.rs line 112. -/
def LoreIndex.add_entry (idx : LoreIndex) (file : RStr) (id : RStr) :
    LoreIndex :=
  ⟨pushAssoc idx.files file id, idx.entry_count + 1⟩

/-- HashMap::get on an association list. -/
def assocLookup (m : List (RStr × β)) (k : RStr) : Option β :=
  match m with
  | [] => none
  | (k', v) :: rest => if k' = k then some v else assocLookup rest k

/-- LoreIndex::get_entries_for_file from src/models.rs line 120. -/
def LoreIndex.get_entries_for_file (idx : LoreIndex) (file : RStr) :
    Option (List RStr) :=
  assocLookup idx.files file

/-- The filesystem state under the store root: whether the .lore directory
exists, the files of the entries directory (name to JSON content), the index
file and the config file when present. -/
structure LoreState where
  inited : Bool
  entriesFiles : List (RStr × Json)
  indexFile : Option LoreIndex
  configFile : Option Json

/-- fs::write into the entries directory: replace the content at the name, or
append a new file. -/
def fsWrite (m : List (RStr × Json)) (k : RStr) (v : Json) :
    List (RStr × Json) :=
  match m with
  | [] => [(k, v)]
  | (k', v') :: rest =>
    if k' = k then (k, v) :: rest else (k', v') :: fsWrite rest k v

/-- Reading a file of the entries directory by name. -/
def fsRead (m : List (RStr × Json)) (k : RStr) : Option Json :=
  match m with
  | [] => none
  | (k', v) :: rest => if k' = k then some v else fsRead rest k

/-- Total order used by sort_by(|a, b| b.timestamp.cmp(&a.timestamp)):
a precedes b when the timestamp of a is at least the timestamp of b. -/
def tsGe (a b : ThoughtObject) : Prop := b.timestamp ≤ a.timestamp

instance : DecidableRel tsGe := fun a b => Nat.decLe b.timestamp a.timestamp

instance : IsTotal ThoughtObject tsGe :=
  ⟨fun a b => Nat.le_total b.timestamp a.timestamp⟩

instance : IsTrans ThoughtObject tsGe :=
  ⟨fun _ _ _ hab hbc => Nat.le_trans hbc hab⟩

/-- Vec::sort_by with the descending timestamp comparator: a stable sort by
the total preorder tsGe, modelled by insertion sort (the unique stable
result). -/
def sortByTimestampDesc (l : List ThoughtObject) : List ThoughtObject :=
  List.insertionSort tsGe l

/-- LoreStorage::init from src/storage.rs line 63.  The state is returned
alongside the result; the two arguments besides the agent id stand for the
ambient clock read by chrono. -/
def LoreStorage.init (s : LoreState) (agentId : Option RStr) (now : Nat) :
    Except StorageError Unit × LoreState :=
  if s.inited then (Except.error StorageError.alreadyInit, s)
  else
    (Except.ok (),
     { inited := true
       entriesFiles := []
       indexFile := some LoreIndex.new
       configFile := some (Json.obj
         [("version".toList, Json.str "0.1.0".toList),
          ("default_agent_id".toList,
           Json.str (agentId.getD "unknown".toList)),
          ("created_at".toList, Json.num now)]) })

/-- LoreStorage::load_index from src/storage.rs line 94: not initialized is an
error, a missing index file yields a fresh index. -/
def LoreStorage.load_index (s : LoreState) : Except StorageError LoreIndex :=
  if s.inited then
    match s.indexFile with
    | none => Except.ok LoreIndex.new
    | some idx => Except.ok idx
  else Except.error StorageError.notInit

/-- The file name of a record: its id followed by the json extension. -/
def entryFileName (id : RStr) : RStr := id ++ ".json".toList

/-- LoreStorage::save_entry from src/storage.rs line 118: write the record
file, then load the index, append under the target_file key and rewrite the
index file. -/
def LoreStorage.save_entry (s : LoreState) (e : ThoughtObject) :
    Except StorageError Unit × LoreState :=
  if s.inited then
    let s1 : LoreState :=
      { s with entriesFiles :=
          fsWrite s.entriesFiles (entryFileName e.id) e.toJson }
    match LoreStorage.load_index s1 with
    | Except.error err => (Except.error err, s1)
    | Except.ok idx =>
      (Except.ok (),
       { s1 with indexFile := some (idx.add_entry e.target_file e.id) })
  else (Except.error StorageError.notInit, s)

/-- LoreStorage::load_entry from src/storage.rs line 137: a missing file is
FileNotFound, content that does not deserialize is a JSON error. -/
def LoreStorage.load_entry (s : LoreState) (id : RStr) :
    Except StorageError ThoughtObject :=
  if s.inited then
    match fsRead s.entriesFiles (entryFileName id) with
    | none => Except.error (StorageError.fileNotFound id)
    | some j =>
      match ThoughtObject.fromJson j with
      | none => Except.error StorageError.jsonErr
      | some e => Except.ok e
  else Except.error StorageError.notInit

/-- LoreStorage::get_entries_for_file from src/storage.rs line 153: load the
index, normalize the argument, look it up, load each id dropping failures,
sort newest first. -/
def LoreStorage.get_entries_for_file (s : LoreState) (filePath : RStr) :
    Except StorageError (List ThoughtObject) :=
  match LoreStorage.load_index s with
  | Except.error err => Except.error err
  | Except.ok idx =>
    let normalized := normalize_path filePath
    let ids := (idx.get_entries_for_file normalized).getD []
    let entries := ids.filterMap (fun id => (LoreStorage.load_entry s id).toOption)
    Except.ok (sortByTimestampDesc entries)

/-- Path::extension() == Some("json"): the name ends in ".json" and the stem
in front of the dot is nonempty. -/
def hasJsonExt (name : RStr) : Bool :=
  decide (".json".toList <:+ name) && decide (5 < name.length)

/-- LoreStorage::get_all_entries from src/storage.rs line 177: scan the
entries directory, deserialize each json file skipping failures, sort newest
first. -/
def LoreStorage.get_all_entries (s : LoreState) :
    Except StorageError (List ThoughtObject) :=
  if s.inited then
    Except.ok (sortByTimestampDesc (s.entriesFiles.filterMap
      (fun nc => if hasJsonExt nc.1 then ThoughtObject.fromJson nc.2 else none)))
  else Except.error StorageError.notInit

/-- str::to_lowercase, character by character. -/
def toLowerL (s : RStr) : RStr := s.map Char.toLower

/-- str::contains on the model strings. -/
def containsSub (hay pat : RStr) : Bool := decide (pat <:+: hay)

/-- The filter predicate of LoreStorage::search, applied to the lowercased
query. -/
def entryMatches (qLower : RStr) (e : ThoughtObject) : Bool :=
  containsSub (toLowerL e.intent) qLower
    || containsSub (toLowerL e.reasoning_trace) qLower
    || e.rejected_alternatives.any (fun alt => containsSub (toLowerL alt.name) qLower)
    || e.tags.any (fun tag => containsSub (toLowerL tag) qLower)

/-- LoreStorage::search from src/storage.rs line 203. -/
def LoreStorage.search (s : LoreState) (query : RStr) :
    Except StorageError (List ThoughtObject) :=
  match LoreStorage.get_all_entries s with
  | Except.error err => Except.error err
  | Except.ok allEntries =>
    Except.ok (allEntries.filter (entryMatches (toLowerL query)))

/-- The match predicate in the words of claim C4: the lowercased query is a
substring of the lowercase of the intent, of the reasoning_trace, of the name
of some rejected alternative, or of some tag. -/
def claimMatches (q : RStr) (e : ThoughtObject) : Prop :=
  toLowerL q <:+: toLowerL e.intent
    ∨ toLowerL q <:+: toLowerL e.reasoning_trace
    ∨ (∃ alt ∈ e.rejected_alternatives, toLowerL q <:+: toLowerL alt.name)
    ∨ (∃ tag ∈ e.tags, toLowerL q <:+: toLowerL tag)

/-- The store root before any initialization: no .lore directory, no files. -/
def emptyRoot : LoreState := ⟨false, [], none, none⟩

/-- A freshly initialized store. -/
def freshStore (agentId : Option RStr) (now : Nat) : LoreState :=
  (LoreStorage.init emptyRoot agentId now).2

/-- A sequence of save_entry calls, threading the state. -/
def saveAll (s : LoreState) (es : List ThoughtObject) : LoreState :=
  es.foldl (fun st e => (LoreStorage.save_entry st e).2) s

/-- The UTF-8 byte length of a model string, as str::len. -/
def byteLen (s : RStr) : Nat := (s.map Char.utf8Size).sum

/-- Taking the first n BYTES of a string, as the right end of a Rust slice:
none when n overruns the string or falls inside a character, which makes the
Rust indexing operation panic. -/
def takeBytes : RStr → Nat → Option RStr
  | _, 0 => some []
  | [], _ + 1 => none
  | c :: cs, n + 1 =>
    if c.utf8Size ≤ n + 1 then
      match takeBytes cs (n + 1 - c.utf8Size) with
      | some r => some (c :: r)
      | none => none
    else none

/-- Dropping the first n BYTES of a string, as the left end of a Rust slice;
none on a non-boundary or out-of-range index. -/
def dropBytes : RStr → Nat → Option RStr
  | s, 0 => some s
  | [], _ + 1 => none
  | c :: cs, n + 1 =>
    if c.utf8Size ≤ n + 1 then dropBytes cs (n + 1 - c.utf8Size) else none

/-- The Rust slice text[a..b] by byte offsets: none exactly when Rust
panics (a > b, an offset out of range, or an offset inside a character). -/
def sliceBytes (s : RStr) (a b : Nat) : Option RStr :=
  if a ≤ b then (dropBytes s a).bind (fun t => takeBytes t (b - a)) else none

/-- str::find returning the byte offset of the first occurrence of the
pattern, scanning character by character. -/
def findSubAux (hay pat : RStr) (acc : Nat) : Option Nat :=
  if pat.isPrefixOf hay then some acc
  else
    match hay with
    | [] => none
    | c :: cs => findSubAux cs pat (acc + c.utf8Size)

/-- str::trim: remove whitespace from both ends. -/
def trimChars (s : RStr) : RStr :=
  ((s.dropWhile Char.isWhitespace).reverse.dropWhile Char.isWhitespace).reverse

/-- create_snippet from src/commands/search.rs line 120, byte-faithful: the
result is none exactly on the inputs where the Rust function panics (a byte
slice bound or String::truncate length falling inside a UTF-8 character). -/
def create_snippet (text query : RStr) (maxLen : Nat) : Option RStr :=
  let textLower := toLowerL text
  let queryLower := toLowerL query
  match findSubAux textLower queryLower 0 with
  | some pos =>
    let start := pos - 50
    let stop := min (pos + byteLen query + 100) (byteLen text)
    match sliceBytes text start stop with
    | none => none
    | some s0 =>
      let s1 := s0.map (fun c => if c = '\n' then ' ' else c)
      let s2 := trimChars s1
      let s3 := if 0 < start then "...".toList ++ s2 else s2
      let s4 := if stop < byteLen text then s3 ++ "...".toList else s3
      if maxLen < byteLen s4 then
        match takeBytes s4 maxLen with
        | none => none
        | some t => some (t ++ "...".toList)
      else some s4
  | none =>
    let s0 := text.take maxLen
    let s1 := s0.map (fun c => if c = '\n' then ' ' else c)
    some (if maxLen < byteLen text then s1 ++ "...".toList else s1)

theorem stripDotSlash_idem (s : RStr) :
    stripDotSlash (stripDotSlash s) = stripDotSlash s := by
  induction s using stripDotSlash.induct with
  | case1 => rfl
  | case2 c => rfl
  | case3 a b rest h ih =>
    rw [stripDotSlash, if_pos h, ih]
  | case4 a b rest h =>
    rw [stripDotSlash, if_neg h, stripDotSlash, if_neg h]

theorem mem_of_mem_stripDotSlash {c : Char} {s : RStr}
    (h : c ∈ stripDotSlash s) : c ∈ s := by
  induction s using stripDotSlash.induct with
  | case1 =>
    rw [stripDotSlash] at h
    exact h
  | case2 d =>
    rw [stripDotSlash] at h
    exact h
  | case3 a b rest hab ih =>
    rw [stripDotSlash, if_pos hab] at h
    exact List.mem_cons_of_mem a (List.mem_cons_of_mem b (ih h))
  | case4 a b rest hab =>
    rwa [stripDotSlash, if_neg hab] at h

theorem map_slashify_of_no_backslash {s : RStr} (h : '\\' ∉ s) :
    s.map slashify = s := by
  induction s with
  | nil => rfl
  | cons c rest ih =>
    have hc : c ≠ '\\' := fun hc => h (hc ▸ List.mem_cons_self c rest)
    simp only [List.map_cons, slashify, if_neg hc,
      ih (fun hm => h (List.mem_cons_of_mem c hm))]

theorem slashify_ne_backslash (c : Char) : slashify c ≠ '\\' := by
  unfold slashify
  split
  · decide
  · assumption

/-- C2 counterexample: idempotence of normalize_path fails as stated.  On the
path ".\a" the first pass strips nothing and rewrites the backslash, producing
"./a"; the second pass then strips the freshly created leading "./". -/
theorem normalize_path_not_idempotent :
    normalize_path (normalize_path ".\\a".toList) ≠ normalize_path ".\\a".toList := by
  decide

/-- C2 (amended): normalize_path is idempotent on every path that contains no
backslash; only a backslash can surface a new leading "./" for a second pass
to strip. -/
theorem normalize_path_idempotent_of_no_backslash (p : RStr)
    (h : '\\' ∉ p) : normalize_path (normalize_path p) = normalize_path p := by
  have h1 : '\\' ∉ stripDotSlash p := fun hm => h (mem_of_mem_stripDotSlash hm)
  have h2 : normalize_path p = stripDotSlash p := map_slashify_of_no_backslash h1
  calc normalize_path (normalize_path p)
      = (stripDotSlash (stripDotSlash p)).map slashify := by rw [normalize_path, h2]
    _ = (stripDotSlash p).map slashify := by rw [stripDotSlash_idem]
    _ = normalize_path p := rfl

/-- C2 witness: idempotence at the backslash-free path "a/b". -/
theorem normalize_path_idempotent_witness :
    normalize_path (normalize_path "a/b".toList) = normalize_path "a/b".toList :=
  normalize_path_idempotent_of_no_backslash "a/b".toList (by decide)

/-- C8 counterexample: normalize_path does not strip at most a single leading
"./" segment.  On "././a/b" the code yields "a/b" where the single-strip
contract of the claim yields "./a/b". -/
theorem normalize_path_ne_spec_normalize_once :
    normalize_path "././a/b".toList ≠ spec_normalize_once "././a/b".toList := by
  decide

/-- C8 (amended): normalize_path strips EVERY leading "./" segment repeatedly
(not just one) and rewrites every backslash separator to a forward slash; in
particular it sends "././a/b" to "a/b", "./a/b" to "a/b" and the path with a
backslash between a and b to "a/b". -/
theorem normalize_path_strips_repeatedly :
    (∀ p : RStr, normalize_path ('.' :: '/' :: p) = normalize_path p)
    ∧ (∀ p : RStr, '\\' ∉ normalize_path p)
    ∧ normalize_path "././a/b".toList = "a/b".toList
    ∧ normalize_path "./a/b".toList = "a/b".toList
    ∧ normalize_path "a\\b".toList = "a/b".toList := by
  refine ⟨fun p => ?_, fun p hm => ?_, by decide, by decide, by decide⟩
  · show (stripDotSlash ('.' :: '/' :: p)).map slashify = _
    rw [stripDotSlash]
    simp [normalize_path]
  · rw [normalize_path] at hm
    obtain ⟨c, _, hc⟩ := List.mem_map.mp hm
    exact slashify_ne_backslash c hc

/-- C3: the claim that create_snippet is total with no failure mode is right
about the intent but wrong about the code: with text of one hundred times the
character a followed by the two-byte character U+00E9 and b, query "a" and the
hard cap 150, the window end 0 + 1 + 100 = 101 falls inside the two-byte
character, and the byte slice of the Rust source panics there.  The
byte-faithful model returns none exactly on the panicking inputs. -/
theorem create_snippet_panics_on_multibyte :
    create_snippet (List.replicate 100 'a' ++ ['é', 'b']) ['a'] 150 = none := by
  decide

theorem alt_roundtrip (a : RejectedAlternative) :
    RejectedAlternative.fromJson a.toJson = some a := by
  obtain ⟨n, r⟩ := a
  cases r <;> rfl

theorem optionMapList_roundtrip {f : α → Option β} {g : β → α}
    (h : ∀ b, f (g b) = some b) (l : List β) :
    optionMapList f (l.map g) = some l := by
  induction l with
  | nil => rfl
  | cons b rest ih => rw [List.map_cons, optionMapList, h b, ih]

theorem optionMapList_roundtrip_cons {f : α → Option β} {g : β → α}
    (h : ∀ b, f (g b) = some b) (b : β) (l : List β) :
    optionMapList f (g b :: l.map g) = some (b :: l) := by
  rw [optionMapList, h b, optionMapList_roundtrip h l]

theorem fromJson_toJson (e : ThoughtObject) :
    ThoughtObject.fromJson e.toJson = some e := by
  obtain ⟨i, tf, lr, fh, ch, ag, ts, it, rt, ra, tg⟩ := e
  cases lr <;> cases ch <;> cases ra <;> cases tg <;>
    simp [ThoughtObject.toJson, ThoughtObject.fromJson, getStr, getNat,
      getOptStr, getOptPair, getAlts, getTags, jLookup, optJField,
      optionMapList_roundtrip_cons alt_roundtrip,
      optionMapList_roundtrip_cons (f := fun j => match j with | Json.str s => some s | _ => none)
        (g := Json.str) (fun _ => rfl)]

theorem fsRead_fsWrite_self (m : List (RStr × Json)) (k : RStr) (v : Json) :
    fsRead (fsWrite m k v) k = some v := by
  induction m with
  | nil => simp [fsWrite, fsRead]
  | cons p rest ih =>
    obtain ⟨k', v'⟩ := p
    by_cases hk : k' = k
    · simp [fsWrite, fsRead, hk]
    · simp [fsWrite, fsRead, hk, ih]

theorem fsRead_fsWrite_ne (m : List (RStr × Json)) {k k' : RStr} (v : Json)
    (h : k' ≠ k) : fsRead (fsWrite m k' v) k = fsRead m k := by
  induction m with
  | nil => simp [fsWrite, fsRead, h]
  | cons p rest ih =>
    obtain ⟨k'', v''⟩ := p
    by_cases hk : k'' = k'
    · subst hk
      simp [fsWrite, fsRead, h]
    · simp only [fsWrite, if_neg hk, fsRead, ih]

theorem save_entry_eq (s : LoreState) (e : ThoughtObject)
    (h : s.inited = true) :
    LoreStorage.save_entry s e =
      (Except.ok (),
       { inited := true
         entriesFiles := fsWrite s.entriesFiles (entryFileName e.id) e.toJson
         indexFile :=
           some ((s.indexFile.getD LoreIndex.new).add_entry e.target_file e.id)
         configFile := s.configFile }) := by
  obtain ⟨ini, ef, idxf, cfg⟩ := s
  cases h
  cases idxf <;> rfl

/-- C1: on an initialized store, save_entry succeeds and load_entry on the
saved id returns the record field for field: the record file is written under
the id, and deserialization inverts serialization including the omission
rules for absent optional fields and empty sequences. -/
theorem save_then_load (s : LoreState) (e : ThoughtObject)
    (h : s.inited = true) :
    (LoreStorage.save_entry s e).1 = Except.ok ()
    ∧ LoreStorage.load_entry (LoreStorage.save_entry s e).2 e.id
        = Except.ok e := by
  rw [save_entry_eq s e h]
  refine ⟨rfl, ?_⟩
  unfold LoreStorage.load_entry
  simp [fsRead_fsWrite_self, fromJson_toJson]

/-- C1 witness: a concrete record saved into a fresh store loads back. -/
theorem save_then_load_witness :
    (LoreStorage.save_entry (freshStore none 0)
        ⟨"id1".toList, "a.rs".toList, none, "h".toList, none, "ag".toList, 5,
         "i".toList, "r".toList, [], []⟩).1 = Except.ok ()
    ∧ LoreStorage.load_entry
        (LoreStorage.save_entry (freshStore none 0)
          ⟨"id1".toList, "a.rs".toList, none, "h".toList, none, "ag".toList, 5,
           "i".toList, "r".toList, [], []⟩).2 "id1".toList
      = Except.ok ⟨"id1".toList, "a.rs".toList, none, "h".toList, none,
          "ag".toList, 5, "i".toList, "r".toList, [], []⟩ :=
  save_then_load (freshStore none 0) _ rfl

/-- C5: init on a root whose store directory already exists fails with the
already-initialized error before any write, so the state (index, config,
record files) is returned unchanged. -/
theorem init_on_existing_store (s : LoreState) (a : Option RStr) (now : Nat)
    (h : s.inited = true) :
    LoreStorage.init s a now = (Except.error StorageError.alreadyInit, s) := by
  unfold LoreStorage.init
  simp [h]

/-- C5 witness: a second init on a fresh store errors and changes nothing. -/
theorem init_on_existing_store_witness :
    LoreStorage.init (freshStore none 0) none 1
      = (Except.error StorageError.alreadyInit, freshStore none 0) :=
  init_on_existing_store (freshStore none 0) none 1 rfl

/-- C10: save_entry indexes the record under its target_file string verbatim
while get_entries_for_file normalizes its argument before the lookup, so a
record whose target_file is not in normalized form is indexed but unreachable
through a lookup of that same string. -/
theorem save_unnormalized_is_unreachable (a : Option RStr) (now : Nat)
    (e : ThoughtObject) (h : normalize_path e.target_file ≠ e.target_file) :
    (LoreStorage.save_entry (freshStore a now) e).2.indexFile
        = some ⟨[(e.target_file, [e.id])], 1⟩
    ∧ LoreStorage.get_entries_for_file
        (LoreStorage.save_entry (freshStore a now) e).2 e.target_file
      = Except.ok [] := by
  rw [save_entry_eq (freshStore a now) e rfl]
  refine ⟨rfl, ?_⟩
  unfold LoreStorage.get_entries_for_file LoreStorage.load_index
  simp only [freshStore, LoreStorage.init, emptyRoot]
  simp [LoreIndex.get_entries_for_file, LoreIndex.add_entry, LoreIndex.new,
    pushAssoc, assocLookup, Ne.symm h, sortByTimestampDesc]

/-- C10 witness: a record for "./a" is indexed under "./a" but looking up
"./a" is redirected to "a" and returns nothing. -/
theorem save_unnormalized_is_unreachable_witness :
    (LoreStorage.save_entry (freshStore none 0)
        ⟨"x".toList, "./a".toList, none, "h".toList, none, "ag".toList, 1,
         "i".toList, "r".toList, [], []⟩).2.indexFile
      = some ⟨[("./a".toList, ["x".toList])], 1⟩
    ∧ LoreStorage.get_entries_for_file
        (LoreStorage.save_entry (freshStore none 0)
          ⟨"x".toList, "./a".toList, none, "h".toList, none, "ag".toList, 1,
           "i".toList, "r".toList, [], []⟩).2 "./a".toList
      = Except.ok [] :=
  save_unnormalized_is_unreachable none 0 _ (by decide)

theorem entryMatches_iff (q : RStr) (e : ThoughtObject) :
    entryMatches (toLowerL q) e = true ↔ claimMatches q e := by
  simp [entryMatches, claimMatches, containsSub, List.any_eq_true, or_assoc]

theorem entryMatches_nil (e : ThoughtObject) :
    entryMatches (toLowerL []) e = true := by
  simp [entryMatches, toLowerL, containsSub, List.nil_infix]

/-- C4: search returns exactly the records of get_all_entries whose lowered
intent, reasoning trace, some rejected alternative name or some tag contains
the lowered query, preserves the order of get_all_entries (which is timestamp
descending), and the empty query returns every record. -/
theorem search_spec (s : LoreState) (q : RStr) (l m : List ThoughtObject)
    (hl : LoreStorage.search s q = Except.ok l)
    (hm : LoreStorage.get_all_entries s = Except.ok m) :
    (∀ r, r ∈ l ↔ r ∈ m ∧ claimMatches q r)
    ∧ l.Sublist m
    ∧ l.Pairwise tsGe
    ∧ (q = [] → l = m) := by
  unfold LoreStorage.search at hl
  rw [hm] at hl
  have hlm : l = m.filter (entryMatches (toLowerL q)) :=
    (Except.ok.injEq _ _ ▸ hl).symm
  have hsorted : m.Pairwise tsGe := by
    unfold LoreStorage.get_all_entries at hm
    by_cases hi : s.inited
    · simp only [hi, if_true, Except.ok.injEq] at hm
      rw [← hm]
      exact List.sorted_insertionSort tsGe _
    · simp [hi] at hm
  subst hlm
  refine ⟨?_, List.filter_sublist m, ?_, ?_⟩
  · intro r
    rw [List.mem_filter, entryMatches_iff]
  · exact hsorted.sublist (List.filter_sublist m)
  · intro hq
    subst hq
    exact List.filter_eq_self.mpr (fun r _ => entryMatches_nil r)

/-- C4 witness: on an empty fresh store the search result is the filter of
the empty record list. -/
theorem search_spec_witness :
    ([] : List ThoughtObject).Sublist ([] : List ThoughtObject) :=
  (search_spec (freshStore none 0) [] [] [] rfl rfl).2.1

/-- C9: on an initialized store get_all_entries succeeds, its result contains
exactly the records parsed from files of the entries directory with the json
extension (files that do not parse as a record are silently skipped and do
not appear), the result is sorted by timestamp descending, and an empty
entries directory yields the empty sequence. -/
theorem get_all_entries_spec (s : LoreState) (h : s.inited = true) :
    ∃ l, LoreStorage.get_all_entries s = Except.ok l
      ∧ l.Pairwise tsGe
      ∧ (∀ r, r ∈ l ↔ ∃ name j, (name, j) ∈ s.entriesFiles
          ∧ hasJsonExt name = true ∧ ThoughtObject.fromJson j = some r)
      ∧ (s.entriesFiles = [] → l = []) := by
  refine ⟨sortByTimestampDesc (s.entriesFiles.filterMap
    (fun nc => if hasJsonExt nc.1 then ThoughtObject.fromJson nc.2 else none)),
    ?_, List.sorted_insertionSort tsGe _, ?_, ?_⟩
  · unfold LoreStorage.get_all_entries
    simp [h]
  · intro r
    unfold sortByTimestampDesc
    rw [(List.perm_insertionSort tsGe _).mem_iff, List.mem_filterMap]
    constructor
    · rintro ⟨⟨name, j⟩, hmem, hval⟩
      by_cases hext : hasJsonExt name
      · exact ⟨name, j, hmem, hext, by simpa [hext] using hval⟩
      · simp [hext] at hval
    · rintro ⟨name, j, hmem, hext, hval⟩
      exact ⟨(name, j), hmem, by simpa [hext] using hval⟩
  · intro hempty
    rw [hempty]
    rfl

/-- C9 witness: a fresh store with no record files yields the empty list. -/
theorem get_all_entries_spec_witness :
    LoreStorage.get_all_entries (freshStore none 0) = Except.ok [] := by
  obtain ⟨l, h1, _, _, h4⟩ := get_all_entries_spec (freshStore none 0) rfl
  rw [h4 rfl] at h1
  exact h1

theorem pushAssoc_keys (m : List (RStr × List RStr)) (k v) :
    (pushAssoc m k v).map Prod.fst =
      if k ∈ m.map Prod.fst then m.map Prod.fst
      else m.map Prod.fst ++ [k] := by
  induction m with
  | nil => simp [pushAssoc]
  | cons p rest ih =>
    obtain ⟨k', vs⟩ := p
    by_cases hk : k' = k
    · subst hk
      simp [pushAssoc]
    · by_cases hm : k ∈ rest.map Prod.fst <;>
        simp [pushAssoc, hk, ih, hm, Ne.symm hk]

theorem pushAssoc_keys_nodup {m : List (RStr × List RStr)} (k v)
    (h : (m.map Prod.fst).Nodup) :
    ((pushAssoc m k v).map Prod.fst).Nodup := by
  rw [pushAssoc_keys]
  split
  · exact h
  · next hk => simp [List.nodup_append, h, hk]

theorem pushAssoc_keys_toFinset (m : List (RStr × List RStr)) (k v) :
    ((pushAssoc m k v).map Prod.fst).toFinset
      = insert k (m.map Prod.fst).toFinset := by
  rw [pushAssoc_keys]
  split
  · next hk => rw [Finset.insert_eq_self.mpr (List.mem_toFinset.mpr hk)]
  · next hk =>
    rw [List.toFinset_append, Finset.union_comm, Finset.insert_eq]
    simp

theorem saveAll_index (rs : List ThoughtObject) :
    ∀ (s : LoreState) (idx : LoreIndex), s.inited = true →
      s.indexFile = some idx → (idx.files.map Prod.fst).Nodup →
      ∃ idx', (saveAll s rs).indexFile = some idx'
        ∧ idx'.entry_count = idx.entry_count + rs.length
        ∧ (idx'.files.map Prod.fst).Nodup
        ∧ (idx'.files.map Prod.fst).toFinset
            = (idx.files.map Prod.fst).toFinset
              ∪ (rs.map (fun e => e.target_file)).toFinset := by
  induction rs with
  | nil =>
    intro s idx hi hx hnd
    exact ⟨idx, hx, by simp [saveAll], hnd, by simp [saveAll]⟩
  | cons e rest ih =>
    intro s idx hi hx hnd
    have hs1 : saveAll s (e :: rest)
        = saveAll (LoreStorage.save_entry s e).2 rest := by
      simp [saveAll]
    obtain ⟨idx', h1, h2, h3, h4⟩ :=
      ih { inited := true
           entriesFiles := fsWrite s.entriesFiles (entryFileName e.id) e.toJson
           indexFile := some (idx.add_entry e.target_file e.id)
           configFile := s.configFile }
        (idx.add_entry e.target_file e.id) rfl rfl
        (pushAssoc_keys_nodup _ _ hnd)
    refine ⟨idx', ?_, ?_, h3, ?_⟩
    · rw [hs1, save_entry_eq s e hi, hx]
      exact h1
    · rw [h2]
      simp [LoreIndex.add_entry]
      omega
    · rw [h4]
      simp [LoreIndex.add_entry, pushAssoc_keys_toFinset,
        Finset.insert_union, Finset.union_insert]

/-- C6: starting from a fresh store, after saving a list of records the index
has entry_count equal to the number of records and its files map has exactly
one key per distinct target_file value among the saved records. -/
theorem index_count_invariant (a : Option RStr) (now : Nat)
    (rs : List ThoughtObject) :
    ∃ idx, (saveAll (freshStore a now) rs).indexFile = some idx
      ∧ idx.entry_count = rs.length
      ∧ idx.files.length = (rs.map (fun e => e.target_file)).toFinset.card := by
  obtain ⟨idx, h1, h2, h3, h4⟩ :=
    saveAll_index rs (freshStore a now) LoreIndex.new rfl rfl
      (by simp [LoreIndex.new])
  refine ⟨idx, h1, by simpa [LoreIndex.new] using h2, ?_⟩
  have hlen : idx.files.length = (idx.files.map Prod.fst).length := by simp
  rw [hlen, ← List.toFinset_card_of_nodup h3, h4]
  simp [LoreIndex.new]

theorem entryFileName_inj {i1 i2 : RStr}
    (h : entryFileName i1 = entryFileName i2) : i1 = i2 :=
  List.append_cancel_right h

/-- C7: querying a normalized file path on a fresh store after saving records
for that path returns them sorted by timestamp descending: three records with
timestamps t1 < t2 < t3 come back in the order [t3, t2, t1], and two records
with equal timestamps are both returned without de-duplication.  The records
range over the data model of the specification, whose target_file is a
normalized path string. -/
theorem get_entries_for_file_order :
    (∀ (a : Option RStr) (now : Nat) (e1 e2 e3 : ThoughtObject),
      e2.target_file = e1.target_file → e3.target_file = e1.target_file →
      normalize_path e1.target_file = e1.target_file →
      e1.id ≠ e2.id → e1.id ≠ e3.id → e2.id ≠ e3.id →
      e1.timestamp < e2.timestamp → e2.timestamp < e3.timestamp →
      LoreStorage.get_entries_for_file (saveAll (freshStore a now) [e1, e2, e3])
          e1.target_file
        = Except.ok [e3, e2, e1])
    ∧ (∀ (a : Option RStr) (now : Nat) (e1 e2 : ThoughtObject),
      e2.target_file = e1.target_file →
      normalize_path e1.target_file = e1.target_file →
      e1.id ≠ e2.id → e1.timestamp = e2.timestamp →
      ∃ l, LoreStorage.get_entries_for_file (saveAll (freshStore a now) [e1, e2])
          e1.target_file = Except.ok l
        ∧ e1 ∈ l ∧ e2 ∈ l ∧ l.length = 2) := by
  constructor
  · intro a now e1 e2 e3 h2 h3 hnorm h12 h13 h23 t12 t23
    have f12 : entryFileName e1.id ≠ entryFileName e2.id :=
      fun h => h12 (entryFileName_inj h)
    have f13 : entryFileName e1.id ≠ entryFileName e3.id :=
      fun h => h13 (entryFileName_inj h)
    have f23 : entryFileName e2.id ≠ entryFileName e3.id :=
      fun h => h23 (entryFileName_inj h)
    have n12 : ¬ tsGe e1 e2 := not_le.mpr t12
    have n13 : ¬ tsGe e1 e3 := not_le.mpr (lt_trans t12 t23)
    have n23 : ¬ tsGe e2 e3 := not_le.mpr t23
    simp only [saveAll, List.foldl]
    rw [save_entry_eq _ e1 rfl]
    rw [save_entry_eq _ e2 rfl]
    rw [save_entry_eq _ e3 rfl]
    unfold LoreStorage.get_entries_for_file LoreStorage.load_index
    simp only [freshStore, LoreStorage.init, emptyRoot]
    simp [hnorm, h2, h3, LoreIndex.get_entries_for_file, LoreIndex.add_entry,
      LoreIndex.new, pushAssoc, assocLookup, LoreStorage.load_entry,
      fsRead_fsWrite_self, fsRead_fsWrite_ne, f12, f13, f23,
      Ne.symm f12, Ne.symm f13, Ne.symm f23, fromJson_toJson, Except.toOption,
      sortByTimestampDesc, List.insertionSort, List.orderedInsert,
      n12, n13, n23]
  · intro a now e1 e2 h2 hnorm h12 teq
    have f12 : entryFileName e1.id ≠ entryFileName e2.id :=
      fun h => h12 (entryFileName_inj h)
    have p12 : tsGe e1 e2 := le_of_eq teq.symm
    refine ⟨[e1, e2], ?_, by simp, by simp, rfl⟩
    simp only [saveAll, List.foldl]
    rw [save_entry_eq _ e1 rfl]
    rw [save_entry_eq _ e2 rfl]
    unfold LoreStorage.get_entries_for_file LoreStorage.load_index
    simp only [freshStore, LoreStorage.init, emptyRoot]
    simp [hnorm, h2, LoreIndex.get_entries_for_file, LoreIndex.add_entry,
      LoreIndex.new, pushAssoc, assocLookup, LoreStorage.load_entry,
      fsRead_fsWrite_self, fsRead_fsWrite_ne, f12, Ne.symm f12,
      fromJson_toJson, Except.toOption,
      sortByTimestampDesc, List.insertionSort, List.orderedInsert, p12]

/-- C7 witness: three concrete records with timestamps 1 < 2 < 3 for file "f"
come back as [t3, t2, t1], and two concrete records with equal timestamps are
both returned. -/
theorem get_entries_for_file_order_witness :
    LoreStorage.get_entries_for_file
        (saveAll (freshStore none 0)
          [⟨"a".toList, "f".toList, none, "h".toList, none, "g".toList, 1,
            "i".toList, "r".toList, [], []⟩,
           ⟨"b".toList, "f".toList, none, "h".toList, none, "g".toList, 2,
            "i".toList, "r".toList, [], []⟩,
           ⟨"c".toList, "f".toList, none, "h".toList, none, "g".toList, 3,
            "i".toList, "r".toList, [], []⟩]) "f".toList
      = Except.ok
          [⟨"c".toList, "f".toList, none, "h".toList, none, "g".toList, 3,
            "i".toList, "r".toList, [], []⟩,
           ⟨"b".toList, "f".toList, none, "h".toList, none, "g".toList, 2,
            "i".toList, "r".toList, [], []⟩,
           ⟨"a".toList, "f".toList, none, "h".toList, none, "g".toList, 1,
            "i".toList, "r".toList, [], []⟩]
    ∧ ∃ l, LoreStorage.get_entries_for_file
        (saveAll (freshStore none 0)
          [⟨"a".toList, "f".toList, none, "h".toList, none, "g".toList, 7,
            "i".toList, "r".toList, [], []⟩,
           ⟨"b".toList, "f".toList, none, "h".toList, none, "g".toList, 7,
            "i".toList, "r".toList, [], []⟩]) "f".toList = Except.ok l
      ∧ ⟨"a".toList, "f".toList, none, "h".toList, none, "g".toList, 7,
          "i".toList, "r".toList, [], []⟩ ∈ l
      ∧ ⟨"b".toList, "f".toList, none, "h".toList, none, "g".toList, 7,
          "i".toList, "r".toList, [], []⟩ ∈ l
      ∧ l.length = 2 :=
  ⟨get_entries_for_file_order.1 none 0 _ _ _ rfl rfl (by decide)
      (by decide) (by decide) (by decide) (by decide) (by decide),
   get_entries_for_file_order.2 none 0 _ _ rfl (by decide) (by decide) rfl⟩
